import Mathlib

/-!
Verification of the amount-representation and response-shaping layer of a
YNAB MCP server (src/ynab_mcp.py, a single Python file).

The embedding below translates the program's pure core and the control flow
of its two transaction-listing tools into Lean:

* Python strings are `List Char` (`Str`); JSON-ready values (the output of
  the upstream client's `to_dict()` and the dictionaries the tools build)
  are the inductive `JVal`, with dictionaries as ordered association lists
  with unique keys, as Python dicts are.
* Python floats appear in two places, and both are modelled as IEEE-754
  binary64 arithmetic over exact rationals: a double is the rational it
  denotes, and `roundToDouble` is the round-to-nearest, ties-to-even
  rounding of an exact rational to 53 significant bits (overflow and
  subnormals are far outside the program's value range and not modelled).
  `dollars_to_milliunits` truncates toward zero (`int()`) the rounded
  product `fl(dollars * 1000)` of the double input; `milliunits_to_dollars`
  formats the double `fl(milliunits / 1000)` with two fractional digits and
  thousands grouping (CPython's float formatting rounds the exact binary
  value correctly, ties to even, which `roundNEQ` on the exact rational of
  the double reproduces).  This is the representation-error path on which
  the spec's truncation and rendering sentences fail; claims C1 and C2 are
  corrected accordingly.
* Effects are made explicit: each tool run takes the upstream response as
  an `Except Failure` value, an `Option Failure` saying whether a file
  write raises, and the timestamp the generated file name would use; it
  returns the text the tool answers plus the log of files written.  The
  `try/except Exception` wrapper of every tool body is the fact that the
  run functions return `Except.ok` with `handle_api_error` applied, rather
  than propagating an `Except.error`.
-/

/-- A Python string, as its list of characters. -/
abbrev Str := List Char

/-- A JSON-ready Python value: what `to_dict()` returns and `json.dumps`
serializes. Objects are ordered association lists (Python dicts preserve
insertion order). -/
inductive JVal where
  | null
  | bool (b : Bool)
  | int (n : ℤ)
  | str (s : Str)
  | arr (elems : List JVal)
  | obj (fields : List (String × JVal))

/-- A Python dict with JSON-ready values. -/
abbrev Dict := List (String × JVal)

/-- Dictionary lookup: the value at the first matching key (keys are unique
in any dict the program handles). `dictGet d k = none` is Python's
`k not in d`. -/
def dictGet : Dict → String → Option JVal
  | [], _ => none
  | (k', v) :: rest, k => if k' == k then some v else dictGet rest k

/-- Python dict assignment `d[k] = v`: updates the existing key in place
(keeping its position) or appends a new entry at the end. -/
def dictSet : Dict → String → JVal → Dict
  | [], k, v => [(k, v)]
  | (k', v') :: rest, k, v =>
      if k' == k then (k, v) :: rest else (k', v') :: dictSet rest k v

/-- Decimal digits of a natural number, as Python's `str` renders it. -/
def natStr (n : ℕ) : Str := Nat.toDigits 10 n

/-- Decimal rendering of an integer, as Python's `str` / f-string renders it. -/
def intStr (n : ℤ) : Str :=
  if n < 0 then '-' :: natStr n.natAbs else natStr n.natAbs

/-- JSON string escaping for one character (the cases `json.dumps` needs on
the program's data; the `\uXXXX` escaping of other control and non-ASCII
characters is not modelled, no claim touches it). -/
def escapeChar (c : Char) : Str :=
  if c = '"' then ['\\', '"']
  else if c = '\\' then ['\\', '\\']
  else if c = '\n' then ['\\', 'n']
  else if c = '\t' then ['\\', 't']
  else if c = '\r' then ['\\', 'r']
  else [c]

/-- A JSON string literal: quoted and escaped. -/
def quoteStr (s : Str) : Str := '"' :: (s.flatMap escapeChar) ++ ['"']

/-- `n` spaces, the indentation `json.dumps(..., indent=2)` writes. -/
def spacesN (n : ℕ) : Str := List.replicate n ' '

/-- Join pieces with a separator, as `", ".join(...)` would. -/
def joinSep (sep : Str) : List Str → Str
  | [] => []
  | [x] => x
  | x :: y :: rest => x ++ sep ++ joinSep sep (y :: rest)

/-- `json.dumps(v, indent=2)` at nesting level `lvl`: containers open a
bracket, list each member on its own line indented two more spaces, join
members with a comma, and close at the parent indentation; empty containers
print inline. The item separator is a comma and the key separator a colon
and a space, Python's defaults with an indent. -/
def json_dumps : ℕ → JVal → Str
  | _, .null => "null".data
  | _, .bool true => "true".data
  | _, .bool false => "false".data
  | _, .int n => intStr n
  | _, .str s => quoteStr s
  | _, .arr [] => "[]".data
  | lvl, .arr (x :: xs) =>
      '[' :: '\n' ::
        joinSep (",\n".data)
          ((x :: xs).attach.map (fun y => spacesN (2 * (lvl + 1)) ++ json_dumps (lvl + 1) y.1)) ++
      '\n' :: (spacesN (2 * lvl) ++ [']'])
  | _, .obj [] => ['{', '}']
  | lvl, .obj (p :: ps) =>
      '{' :: '\n' ::
        joinSep (",\n".data)
          ((p :: ps).attach.map (fun y =>
            spacesN (2 * (lvl + 1)) ++ quoteStr y.1.1.data ++ ':' :: ' ' :: json_dumps (lvl + 1) y.1.2)) ++
      '\n' :: (spacesN (2 * lvl) ++ ['}'])
termination_by _ v => sizeOf v
decreasing_by
  · have h := List.sizeOf_lt_of_mem y.2
    simp at *
    omega
  · have h := List.sizeOf_lt_of_mem y.2
    obtain ⟨⟨k, v⟩, hy⟩ := y
    simp at *
    omega

/-- Digits of a natural number in reverse, with a comma inserted after every
third digit, the helper behind thousands grouping. -/
def commasRev : Str → Str
  | a :: b :: c :: d :: rest => a :: b :: c :: ',' :: commasRev (d :: rest)
  | l => l

/-- A natural number with thousands separators, as Python's `,` format spec
renders the integer part. -/
def groupDigits (n : ℕ) : Str := (commasRev (natStr n).reverse).reverse

/-- A two-digit cent field, zero padded (the fractional part of a `.2f`
format; its argument is below 100 wherever the program uses it). -/
def pad2 (n : ℕ) : Str :=
  if n < 10 then ['0', Nat.digitChar n] else [Nat.digitChar (n / 10), Nat.digitChar (n % 10)]

/-- Round `a / b` to the nearest integer, ties to even: the rounding of a
two-decimal float format applied to an exact quotient. -/
def roundHalfEvenDiv (a b : ℕ) : ℕ :=
  if 2 * (a % b) < b then a / b
  else if b < 2 * (a % b) then a / b + 1
  else if (a / b) % 2 = 0 then a / b else a / b + 1

/-- A cent count rendered as a currency body: grouped dollars, a point, two
cent digits (`f"{x:,.2f}"` on a non-negative `x` whose cents are `cents`). -/
def formatCents (cents : ℕ) : Str := groupDigits (cents / 100) ++ '.' :: pad2 (cents % 100)

/-- Round a rational to the nearest integer, ties to even: the correct
rounding CPython's float-to-decimal formatting applies to the exact binary
value of a double. -/
def roundNEQ (q : ℚ) : ℤ :=
  if q - ⌊q⌋ < 1 / 2 then ⌊q⌋
  else if 1 / 2 < q - (⌊q⌋ : ℚ) then ⌊q⌋ + 1
  else if ⌊q⌋ % 2 = 0 then ⌊q⌋ else ⌊q⌋ + 1

/-- The binade of a positive rational: the unique `e` with
`2 ^ e ≤ q < 2 ^ (e + 1)`, computed from the bit lengths of numerator and
denominator (the candidate from `Nat.log2` is off by at most one, so one
comparison corrects it; `binadeExp_spec` proves the characterization). -/
def binadeExp (q : ℚ) : ℤ :=
  if (2:ℚ) ^ ((q.num.natAbs.log2 : ℤ) - (q.den.log2 : ℤ)) ≤ q
  then (q.num.natAbs.log2 : ℤ) - (q.den.log2 : ℤ)
  else (q.num.natAbs.log2 : ℤ) - (q.den.log2 : ℤ) - 1

/-- IEEE-754 binary64 rounding (round to nearest, ties to even) of an exact
rational, as the exact rational the resulting double denotes: the nearest
`m * 2 ^ (e - 52)` with `2 ^ 52 ≤ m ≤ 2 ^ 53`. Overflow and subnormal
underflow cannot occur for the program's values and are not modelled. -/
def roundToDouble (q : ℚ) : ℚ :=
  if q = 0 then 0
  else if q < 0 then
    -((roundNEQ (|q| * (2:ℚ) ^ ((52:ℤ) - binadeExp |q|)) : ℚ) * (2:ℚ) ^ (binadeExp |q| - 52))
  else (roundNEQ (|q| * (2:ℚ) ^ ((52:ℤ) - binadeExp |q|)) : ℚ) * (2:ℚ) ^ (binadeExp |q| - 52)

/-- Source: src/ynab_mcp.py lines 27-31 (`milliunits_to_dollars`). The
source computes `dollars = milliunits / 1000` in binary64 — modelled as
`roundToDouble` of the exact quotient — returns
`f"-$\x7babs(dollars):,.2f\x7d"` when `dollars < 0` and
`f"$\x7bdollars:,.2f\x7d"` otherwise. CPython's `.2f` formatting rounds
the exact binary value of the double to two decimals, ties to even:
`roundNEQ` of the double's exact rational times 100, then grouped dollars,
a point and two cent digits. -/
def milliunits_to_dollars (milliunits : ℤ) : Str :=
  if roundToDouble ((milliunits : ℚ) / 1000) < 0 then
    '-' :: '$' :: formatCents (roundNEQ (|roundToDouble ((milliunits : ℚ) / 1000)| * 100)).toNat
  else '$' :: formatCents (roundNEQ (roundToDouble ((milliunits : ℚ) / 1000) * 100)).toNat

/-- The spec's rendering of a non-negative amount "with two fractional
digits and thousands grouping": the amount rounded to whole cents (half-even
at ties), grouped dollars, a point, two cent digits. Stated over exact
rationals, as the spec's sentence reads; the program formats the double
instead, and claim C2 is corrected to say so. -/
def renderFixed2 (q : ℚ) : Str := formatCents (roundNEQ (q * 100)).toNat

/-- Truncation toward zero, Python's `int()` on a number. -/
def ratTruncTowardZero (q : ℚ) : ℤ := if q < 0 then ⌈q⌉ else ⌊q⌋

/-- Source: src/ynab_mcp.py lines 34-35 (`dollars_to_milliunits`):
`int(dollars * 1000)` on the float input. The binary64 multiplication is
the exact product rounded by `roundToDouble`; `int()` truncates toward
zero. The caller's decimal is itself a double by the time it reaches this
function, so claims about a decimal input `d` see
`dollars_to_milliunits (roundToDouble d)`. -/
def dollars_to_milliunits (dollars : ℚ) : ℤ :=
  ratTruncTowardZero (roundToDouble (dollars * 1000))

/-- The integer a monetary field holds. A present, non-null, non-integer
monetary value would make the source's float formatting raise; such values
are outside the modelled domain and mapped to 0. -/
def jvalToInt : JVal → ℤ
  | .int n => n
  | _ => 0

/-- One iteration of the loop of `transform_amount_fields` (source lines
38-45): when `field` is present and not None, store the original value
under `field + "_milliunits"` and replace `field` with its display
string. -/
def applyAmountField (result : Dict) (field : String) : Dict :=
  match dictGet result field with
  | none => result
  | some JVal.null => result
  | some v =>
      dictSet (dictSet result (field ++ "_milliunits") v) field
        (JVal.str (milliunits_to_dollars (jvalToInt v)))

/-- Source: src/ynab_mcp.py lines 38-45 (`transform_amount_fields`). -/
def transform_amount_fields (obj : Dict) (fields : List String) : Dict :=
  fields.foldl applyAmountField obj

/-- Source: src/ynab_mcp.py lines 48-52 (`transform_account`). -/
def transform_account (account : Dict) : Dict :=
  transform_amount_fields account ["balance", "cleared_balance", "uncleared_balance"]

/-- Source: src/ynab_mcp.py lines 55-59 (`transform_category`). -/
def transform_category (category : Dict) : Dict :=
  transform_amount_fields category ["budgeted", "activity", "balance", "goal_target", "goal_overall_left"]

/-- Source: src/ynab_mcp.py lines 62-63 (`transform_transaction`). -/
def transform_transaction (txn : Dict) : Dict :=
  transform_amount_fields txn ["amount"]

/-- One element of a month's `categories` list: the source iterates dicts;
a non-dict element would make `transform_category` raise and is modelled as
identity. -/
def transformCategoryElem : JVal → JVal
  | JVal.obj d => JVal.obj (transform_category d)
  | v => v

/-- Source: src/ynab_mcp.py lines 66-73 (`transform_month`): transform the
month's own monetary fields, then, when a `categories` list is present,
transform each element with the category rule, in place (a present
non-list value would make the source's `for` raise; modelled as leaving
the dict unchanged). -/
def transform_month (month : Dict) : Dict :=
  match dictGet (transform_amount_fields month ["income", "budgeted", "activity", "to_be_budgeted"]) "categories" with
  | some (JVal.arr cats) =>
      dictSet (transform_amount_fields month ["income", "budgeted", "activity", "to_be_budgeted"])
        "categories" (JVal.arr (cats.map transformCategoryElem))
  | _ => transform_amount_fields month ["income", "budgeted", "activity", "to_be_budgeted"]

/-- The entity kinds with a fixed monetary-field schema. -/
inductive EntityKind where
  | account
  | category
  | transaction
  | month

/-- The fixed per-kind monetary field list (source lines 48-73). -/
def monetaryFields : EntityKind → List String
  | .account => ["balance", "cleared_balance", "uncleared_balance"]
  | .category => ["budgeted", "activity", "balance", "goal_target", "goal_overall_left"]
  | .transaction => ["amount"]
  | .month => ["income", "budgeted", "activity", "to_be_budgeted"]

/-- The per-kind transformer of the source. -/
def transformEntity : EntityKind → Dict → Dict
  | .account, d => transform_account d
  | .category, d => transform_category d
  | .transaction, d => transform_transaction d
  | .month, d => transform_month d

/-- Well-formedness of a monetary field list, satisfied by each concrete
per-kind list: names are distinct, none is another's name with
`_milliunits` appended, and appending `_milliunits` keeps distinct names
distinct. -/
def FieldsOK (fields : List String) : Prop :=
  fields.Nodup ∧
    ∀ f ∈ fields, ∀ g ∈ fields,
      f ++ "_milliunits" ≠ g ∧ (f ≠ g → f ++ "_milliunits" ≠ g ++ "_milliunits")

/-- A failure a tool body can see: an upstream `ynab.ApiException` with its
status and reason, or any other exception with its type name and message
(an `OSError` from a file write among them). -/
inductive Failure where
  | apiException (status : ℕ) (reason : Str)
  | other (typeName : Str) (descr : Str)

/-- Source: src/ynab_mcp.py lines 90-101 (`handle_api_error`): a total
mapping from a failure to message text; it never raises. -/
def handle_api_error : Failure → Str
  | .apiException status reason =>
      if status = 401 then "Error: Invalid API key. Check YNAB_API_KEY environment variable.".data
      else if status = 403 then "Error: Access forbidden. You don't have permission for this resource.".data
      else if status = 404 then "Error: Resource not found. Check the ID is correct.".data
      else if status = 429 then "Error: Rate limit exceeded. Wait before making more requests.".data
      else "Error: YNAB API error ".data ++ natStr status ++ ": ".data ++ reason
  | .other typeName descr => "Error: ".data ++ typeName ++ ": ".data ++ descr

/-- Whether the first string is an initial segment of the second. -/
def startsWithStr : Str → Str → Bool
  | [], _ => true
  | _ :: _, [] => false
  | a :: q, b :: s => a == b && startsWithStr q s

/-- Python's substring test `needle in hay`. -/
def pyIn (needle : Str) : Str → Bool
  | [] => needle.isEmpty
  | c :: rest => startsWithStr needle (c :: rest) || pyIn needle rest

/-- The mathematical statement of substring containment. -/
def SubstringOf (needle hay : Str) : Prop := ∃ pre post, hay = pre ++ needle ++ post

/-- Python's `str.lower()` (ASCII range; the program's data in the claims
is ASCII). -/
def lowerStr (s : Str) : Str := s.map Char.toLower

/-- A transaction as the upstream client returns it: the attributes the
search reads (`payee_name`, `memo`, each possibly None) and the dict
`to_dict()` yields. -/
structure RawTxn where
  payee_name : Option Str
  memo : Option Str
  fields : Dict

/-- The match test of `ynab_search_transactions` (source lines 925-930):
the lowercased query occurs in the lowercased payee name or memo, a None
attribute read as the empty string. -/
def txnMatches (queryLower : Str) (t : RawTxn) : Bool :=
  pyIn queryLower (lowerStr (t.payee_name.getD [])) ||
  pyIn queryLower (lowerStr (t.memo.getD []))

/-- The filtering loop of `ynab_search_transactions` (source lines
925-931): appends the transformed dict of each matching transaction, in
order. -/
def search_matches (query : Str) (ts : List RawTxn) : List Dict :=
  ts.foldl
    (fun acc t =>
      if txnMatches (lowerStr query) t then acc ++ [transform_transaction t.fields] else acc)
    []

/-- Python's `t.get("amount_milliunits", 0)` on a transformed transaction
(a present non-integer value would make the source's `sum` raise; modelled
as 0, outside the program's data). -/
def milliOrZero (t : Dict) : ℤ :=
  match dictGet t "amount_milliunits" with
  | some (JVal.int n) => n
  | _ => 0

/-- Source lines 639 and 933: the aggregate total, a sum of the integer
milliunit amounts over the (transformed) collection. -/
def txn_total_milliunits (transactions : List Dict) : ℤ :=
  (transactions.map milliOrZero).sum

/-- The integer amount a raw transaction dict carries, 0 when `amount` is
absent or null. -/
def rawAmount (t : Dict) : ℤ :=
  match dictGet t "amount" with
  | some (JVal.int n) => n
  | _ => 0

/-- The raw `amount` field is absent, null or an integer: the shape every
transaction the upstream service returns has. -/
def amountOk (t : Dict) : Bool :=
  match dictGet t "amount" with
  | none => true
  | some JVal.null => true
  | some (JVal.int _) => true
  | _ => false

/-- Source: src/ynab_mcp.py line 15. -/
def CHARACTER_LIMIT : ℕ := 25000

/-- Source: src/ynab_mcp.py line 16, at its default. -/
def OUTPUT_DIR : Str := "/tmp/ynab-mcp".data

/-- Source: src/ynab_mcp.py lines 76-87 (`write_to_file`): the path the
write resolves to — the caller's explicit path when given, else the output
directory, an operation prefix and the second-resolution timestamp. The
directory creation and the write itself are effects, recorded by the run
functions below in their write log. -/
def write_to_file_path (baseName : Str) (output_path : Option Str) (timestamp : Str) : Str :=
  match output_path with
  | some p => p
  | none => OUTPUT_DIR ++ '/' :: baseName ++ '_' :: timestamp ++ ".json".data

/-- The three response-shaping parameters shared by `GetTransactionsInput`
and `SearchTransactionsInput` (source lines 568-590 and 878-902; the
remaining parameters of those models only select which upstream call is
made, which is the `upstream` argument of the run functions). -/
structure ListToolParams where
  output_to_file : Bool
  output_path : Option Str
  summary_only : Bool

/-- The summary-only response object of `ynab_get_transactions` (source
lines 641-646): count, integer total, display total — and nothing else. -/
def get_txns_summary_only_obj (raw : List Dict) : Dict :=
  [("count", JVal.int (raw.map transform_transaction).length),
   ("total_milliunits", JVal.int (txn_total_milliunits (raw.map transform_transaction))),
   ("total", JVal.str (milliunits_to_dollars (txn_total_milliunits (raw.map transform_transaction))))]

/-- The full structured document of `ynab_get_transactions` (source lines
648-653): the summary fields plus the transformed collection. -/
def get_txns_full_obj (raw : List Dict) : Dict :=
  get_txns_summary_only_obj raw ++
    [("transactions", JVal.arr ((raw.map transform_transaction).map JVal.obj))]

/-- The acknowledgement returned after an explicit spill (source lines
656-663). -/
def get_txns_wrote_ack (raw : List Dict) (filepath : Str) : Dict :=
  get_txns_summary_only_obj raw ++
    [("output_file", JVal.str filepath),
     ("message", JVal.str ("Wrote ".data ++ natStr (raw.map transform_transaction).length ++
       " transactions to ".data ++ filepath))]

/-- The acknowledgement returned after an oversized inline result is
spilled (source lines 667-674). -/
def get_txns_too_large_ack (raw : List Dict) (filepath : Str) (resultLen : ℕ) : Dict :=
  get_txns_summary_only_obj raw ++
    [("output_file", JVal.str filepath),
     ("message", JVal.str ("Response too large (".data ++ natStr resultLen ++
       " chars). Wrote to ".data ++ filepath))]

/-- Source: src/ynab_mcp.py lines 603-678 (`ynab_get_transactions`), its
response shaping. `upstream` is what the selected transactions call
returns; `fsFail` is `some e` when a file write would raise `e`; the
result pairs the returned text with the log of files written (path and
document; the source serializes the document into the file with the same
`json.dumps`). The whole body sits in `try/except Exception`, so every
modelled failure — the file-system one included — comes back as
`Except.ok` text via `handle_api_error`, never as `Except.error`. -/
def ynab_get_transactions_run (params : ListToolParams) (upstream : Except Failure (List Dict))
    (fsFail : Option Failure) (timestamp : Str) : Except Failure (Str × List (Str × JVal)) :=
  match upstream with
  | Except.error e => Except.ok (handle_api_error e, [])
  | Except.ok raw =>
      if params.summary_only then
        Except.ok (json_dumps 0 (JVal.obj (get_txns_summary_only_obj raw)), [])
      else if params.output_to_file then
        match fsFail with
        | some e => Except.ok (handle_api_error e, [])
        | none =>
            Except.ok
              (json_dumps 0 (JVal.obj (get_txns_wrote_ack raw
                (write_to_file_path "transactions".data params.output_path timestamp))),
               [(write_to_file_path "transactions".data params.output_path timestamp,
                 JVal.obj (get_txns_full_obj raw))])
      else if (json_dumps 0 (JVal.obj (get_txns_full_obj raw))).length > CHARACTER_LIMIT then
        match fsFail with
        | some e => Except.ok (handle_api_error e, [])
        | none =>
            Except.ok
              (json_dumps 0 (JVal.obj (get_txns_too_large_ack raw
                  (write_to_file_path "transactions".data params.output_path timestamp)
                  (json_dumps 0 (JVal.obj (get_txns_full_obj raw))).length)),
               [(write_to_file_path "transactions".data params.output_path timestamp,
                 JVal.obj (get_txns_full_obj raw))])
      else Except.ok (json_dumps 0 (JVal.obj (get_txns_full_obj raw)), [])

/-- The summary-only response object of `ynab_search_transactions` (source
lines 935-941): the query, count, integer total, display total. -/
def search_summary_only_obj (query : Str) (found : List Dict) : Dict :=
  [("query", JVal.str query),
   ("count", JVal.int found.length),
   ("total_milliunits", JVal.int (txn_total_milliunits found)),
   ("total", JVal.str (milliunits_to_dollars (txn_total_milliunits found)))]

/-- The full structured search document (source lines 943-949). -/
def search_full_obj (query : Str) (found : List Dict) : Dict :=
  search_summary_only_obj query found ++ [("transactions", JVal.arr (found.map JVal.obj))]

/-- The acknowledgement after an explicit search spill (source lines
952-960). -/
def search_wrote_ack (query : Str) (found : List Dict) (filepath : Str) : Dict :=
  search_summary_only_obj query found ++
    [("output_file", JVal.str filepath),
     ("message", JVal.str ("Found ".data ++ natStr found.length ++
       " matching transactions. Wrote to ".data ++ filepath))]

/-- The acknowledgement after an oversized inline search result is spilled
(source lines 963-972). -/
def search_too_large_ack (query : Str) (found : List Dict) (filepath : Str) : Dict :=
  search_summary_only_obj query found ++
    [("output_file", JVal.str filepath),
     ("message", JVal.str ("Response too large. Wrote to ".data ++ filepath))]

/-- Source: src/ynab_mcp.py lines 915-976 (`ynab_search_transactions`),
its filtering and response shaping, under the same effect conventions as
`ynab_get_transactions_run`. -/
def ynab_search_transactions_run (query : Str) (params : ListToolParams)
    (upstream : Except Failure (List RawTxn)) (fsFail : Option Failure) (timestamp : Str) :
    Except Failure (Str × List (Str × JVal)) :=
  match upstream with
  | Except.error e => Except.ok (handle_api_error e, [])
  | Except.ok ts =>
      if params.summary_only then
        Except.ok (json_dumps 0 (JVal.obj (search_summary_only_obj query (search_matches query ts))), [])
      else if params.output_to_file then
        match fsFail with
        | some e => Except.ok (handle_api_error e, [])
        | none =>
            Except.ok
              (json_dumps 0 (JVal.obj (search_wrote_ack query (search_matches query ts)
                (write_to_file_path "search_transactions".data params.output_path timestamp))),
               [(write_to_file_path "search_transactions".data params.output_path timestamp,
                 JVal.obj (search_full_obj query (search_matches query ts)))])
      else if (json_dumps 0 (JVal.obj (search_full_obj query (search_matches query ts)))).length > CHARACTER_LIMIT then
        match fsFail with
        | some e => Except.ok (handle_api_error e, [])
        | none =>
            Except.ok
              (json_dumps 0 (JVal.obj (search_too_large_ack query (search_matches query ts)
                  (write_to_file_path "search_transactions".data params.output_path timestamp))),
               [(write_to_file_path "search_transactions".data params.output_path timestamp,
                 JVal.obj (search_full_obj query (search_matches query ts)))])
      else Except.ok (json_dumps 0 (JVal.obj (search_full_obj query (search_matches query ts))), [])

/-- The `exactly_one_amount` model validator, textually identical at source
lines 481-487 (`UpdateCategoryBudgetInput`), 737-743
(`CreateTransactionInput`) and 1111-1117
(`CreateScheduledTransactionInput`): raise unless exactly one of the two
amount fields is present. -/
def exactly_one_amount (amount_milliunits : Option ℤ) (amount_dollars : Option ℚ) :
    Except Str Unit :=
  if amount_milliunits.isSome == amount_dollars.isSome then
    Except.error "Provide exactly one of amount_milliunits or amount_dollars".data
  else Except.ok ()

/-- The amount the tool bodies send upstream (source lines 503-506, 759-762,
1133-1136): the milliunits when given, else the dollars converted. -/
def resolveAmount (amount_milliunits : Option ℤ) (amount_dollars : Option ℚ) : ℤ :=
  match amount_milliunits with
  | some n => n
  | none => dollars_to_milliunits (amount_dollars.getD 0)

/-- `ynab_create_transaction` up to its upstream call: pydantic runs the
validator at input construction, before the tool body, so a failing
validation returns the error with the upstream flag false. The boolean
records whether the upstream call is reached. -/
def ynab_create_transaction_run (amount_milliunits : Option ℤ) (amount_dollars : Option ℚ) :
    Except Str ℤ × Bool :=
  match exactly_one_amount amount_milliunits amount_dollars with
  | Except.error msg => (Except.error msg, false)
  | Except.ok _ => (Except.ok (resolveAmount amount_milliunits amount_dollars), true)

/-- `ynab_create_scheduled_transaction` up to its upstream call (source
lines 1111-1136), the same shape. -/
def ynab_create_scheduled_transaction_run (amount_milliunits : Option ℤ)
    (amount_dollars : Option ℚ) : Except Str ℤ × Bool :=
  match exactly_one_amount amount_milliunits amount_dollars with
  | Except.error msg => (Except.error msg, false)
  | Except.ok _ => (Except.ok (resolveAmount amount_milliunits amount_dollars), true)

/-- `ynab_update_category_budget` up to its upstream call (source lines
481-506), the same shape. -/
def ynab_update_category_budget_run (amount_milliunits : Option ℤ)
    (amount_dollars : Option ℚ) : Except Str ℤ × Bool :=
  match exactly_one_amount amount_milliunits amount_dollars with
  | Except.error msg => (Except.error msg, false)
  | Except.ok _ => (Except.ok (resolveAmount amount_milliunits amount_dollars), true)

/-- The files a tool run wrote. -/
def writesOf : Except Failure (Str × List (Str × JVal)) → List (Str × JVal)
  | Except.ok (_, w) => w
  | Except.error _ => []

/-- Whether a tool run returned text (rather than propagating an
exception). -/
def resultIsOk : Except Failure (Str × List (Str × JVal)) → Bool
  | Except.ok _ => true
  | Except.error _ => false

/-! ## Dictionary lemmas -/

theorem dictGet_dictSet_self (d : Dict) (k : String) (v : JVal) :
    dictGet (dictSet d k v) k = some v := by
  induction d with
  | nil => simp [dictSet, dictGet]
  | cons p rest ih =>
    obtain ⟨k', v'⟩ := p
    by_cases h : k' = k
    · subst h; simp [dictSet, dictGet]
    · simp [dictSet, dictGet, h, ih]

theorem dictGet_dictSet_ne (d : Dict) (k k' : String) (v : JVal) (h : k' ≠ k) :
    dictGet (dictSet d k v) k' = dictGet d k' := by
  induction d with
  | nil => simp [dictSet, dictGet, Ne.symm h]
  | cons p rest ih =>
    obtain ⟨k0, v0⟩ := p
    by_cases h0 : k0 = k
    · subst h0; simp [dictSet, dictGet, Ne.symm h]
    · by_cases h1 : k0 = k'
      · subst h1; simp [dictSet, dictGet, h0]
      · simp [dictSet, dictGet, h0, h1, ih]

theorem dictGet_applyAmountField_ne (r : Dict) (g x : String)
    (h1 : x ≠ g) (h2 : x ≠ g ++ "_milliunits") :
    dictGet (applyAmountField r g) x = dictGet r x := by
  cases hv : dictGet r g with
  | none => simp [applyAmountField, hv]
  | some v =>
    cases v <;>
      simp [applyAmountField, hv, dictGet_dictSet_ne _ _ _ _ h1, dictGet_dictSet_ne _ _ _ _ h2]

theorem transform_fields_preserve (fields : List String) (r : Dict) (x : String)
    (h : ∀ g ∈ fields, x ≠ g ∧ x ≠ g ++ "_milliunits") :
    dictGet (List.foldl applyAmountField r fields) x = dictGet r x := by
  induction fields generalizing r with
  | nil => rfl
  | cons g rest ih =>
    have hg := h g (List.mem_cons_self g rest)
    rw [List.foldl_cons, ih _ (fun g' hg' => h g' (List.mem_cons_of_mem _ hg')),
      dictGet_applyAmountField_ne r g x hg.1 hg.2]

theorem fieldsOK_of_cons {g : String} {rest : List String} (h : FieldsOK (g :: rest)) :
    FieldsOK rest :=
  ⟨(List.nodup_cons.mp h.1).2,
   fun f hf g' hg' => h.2 f (List.mem_cons_of_mem _ hf) g' (List.mem_cons_of_mem _ hg')⟩

theorem transform_fields_present (fields : List String) :
    ∀ (r : Dict) (field : String) (v : ℤ), FieldsOK fields → field ∈ fields →
    dictGet r field = some (JVal.int v) →
    dictGet (List.foldl applyAmountField r fields) (field ++ "_milliunits") = some (JVal.int v) ∧
    dictGet (List.foldl applyAmountField r fields) field =
      some (JVal.str (milliunits_to_dollars v)) := by
  induction fields with
  | nil => intro r field v _ hmem _; exact absurd hmem (List.not_mem_nil _)
  | cons g rest ih =>
    intro r field v hok hmem hget
    have hnodup := List.nodup_cons.mp hok.1
    rcases List.mem_cons.mp hmem with heq | hmem'
    · subst heq
      have hstep : applyAmountField r field =
          dictSet (dictSet r (field ++ "_milliunits") (JVal.int v)) field
            (JVal.str (milliunits_to_dollars v)) := by
        simp [applyAmountField, hget, jvalToInt]
      have hMne : field ++ "_milliunits" ≠ field := (hok.2 field hmem field hmem).1
      rw [List.foldl_cons, hstep]
      constructor
      · rw [transform_fields_preserve rest _ _ ?hcondA, dictGet_dictSet_ne _ _ _ _ hMne,
          dictGet_dictSet_self]
        case hcondA =>
          intro g' hg'
          refine ⟨(hok.2 field hmem g' (List.mem_cons_of_mem _ hg')).1, ?_⟩
          have hne : field ≠ g' := fun he => hnodup.1 (by rw [he]; exact hg')
          exact (hok.2 field hmem g' (List.mem_cons_of_mem _ hg')).2 hne
      · rw [transform_fields_preserve rest _ _ ?hcondB, dictGet_dictSet_self]
        case hcondB =>
          intro g' hg'
          refine ⟨fun he => hnodup.1 (by rw [he]; exact hg'), ?_⟩
          exact fun he => (hok.2 g' (List.mem_cons_of_mem _ hg') field hmem).1 he.symm
    · have hgne : field ≠ g := fun he => hnodup.1 (by rw [← he]; exact hmem')
      have hgm : field ≠ g ++ "_milliunits" :=
        fun he => (hok.2 g (List.mem_cons_self _ _) field hmem).1 he.symm
      rw [List.foldl_cons]
      have hget' : dictGet (applyAmountField r g) field = some (JVal.int v) := by
        rw [dictGet_applyAmountField_ne r g field hgne hgm]; exact hget
      exact ih (applyAmountField r g) field v (fieldsOK_of_cons hok) hmem' hget'

theorem transform_fields_skip (fields : List String) :
    ∀ (r : Dict) (field : String), FieldsOK fields → field ∈ fields →
    (dictGet r field = none ∨ dictGet r field = some JVal.null) →
    dictGet (List.foldl applyAmountField r fields) field = dictGet r field ∧
    dictGet (List.foldl applyAmountField r fields) (field ++ "_milliunits") =
      dictGet r (field ++ "_milliunits") := by
  induction fields with
  | nil => intro r field _ hmem _; exact absurd hmem (List.not_mem_nil _)
  | cons g rest ih =>
    intro r field hok hmem hnv
    have hnodup := List.nodup_cons.mp hok.1
    rcases List.mem_cons.mp hmem with heq | hmem'
    · subst heq
      have hstep : applyAmountField r field = r := by
        rcases hnv with h | h <;> simp [applyAmountField, h]
      rw [List.foldl_cons, hstep]
      constructor
      · rw [transform_fields_preserve rest r field ?hcondC]
        case hcondC =>
          intro g' hg'
          refine ⟨fun he => hnodup.1 (by rw [he]; exact hg'), ?_⟩
          exact fun he => (hok.2 g' (List.mem_cons_of_mem _ hg') field hmem).1 he.symm
      · rw [transform_fields_preserve rest r _ ?hcondD]
        case hcondD =>
          intro g' hg'
          refine ⟨(hok.2 field hmem g' (List.mem_cons_of_mem _ hg')).1, ?_⟩
          have hne : field ≠ g' := fun he => hnodup.1 (by rw [he]; exact hg')
          exact (hok.2 field hmem g' (List.mem_cons_of_mem _ hg')).2 hne
    · have hgne : field ≠ g := fun he => hnodup.1 (by rw [← he]; exact hmem')
      have hgm : field ≠ g ++ "_milliunits" :=
        fun he => (hok.2 g (List.mem_cons_self _ _) field hmem).1 he.symm
      have hMg : field ++ "_milliunits" ≠ g := (hok.2 field hmem g (List.mem_cons_self _ _)).1
      have hMgm : field ++ "_milliunits" ≠ g ++ "_milliunits" :=
        (hok.2 field hmem g (List.mem_cons_self _ _)).2 hgne
      have h1 : dictGet (applyAmountField r g) field = dictGet r field :=
        dictGet_applyAmountField_ne r g field hgne hgm
      have h2 : dictGet (applyAmountField r g) (field ++ "_milliunits") =
          dictGet r (field ++ "_milliunits") :=
        dictGet_applyAmountField_ne r g _ hMg hMgm
      rw [List.foldl_cons]
      have hnv' : dictGet (applyAmountField r g) field = none ∨
          dictGet (applyAmountField r g) field = some JVal.null := by
        rw [h1]; exact hnv
      obtain ⟨ha, hb⟩ := ih (applyAmountField r g) field (fieldsOK_of_cons hok) hmem' hnv'
      exact ⟨ha.trans h1, hb.trans h2⟩

theorem dictGet_transform_month_ne (d : Dict) (x : String) (hx : x ≠ "categories") :
    dictGet (transform_month d) x =
      dictGet (transform_amount_fields d ["income", "budgeted", "activity", "to_be_budgeted"]) x := by
  unfold transform_month
  cases h : dictGet (transform_amount_fields d ["income", "budgeted", "activity", "to_be_budgeted"])
      "categories" with
  | none => simp [h]
  | some v => cases v <;> simp [h, dictGet_dictSet_ne _ _ _ _ hx]

/-- Claim C3: for every entity mapping and every monetary field of the
entity kind's fixed list, a present non-null integer value `v` is kept
under the new key `field ++ "_milliunits"` while the field itself becomes
the display string of `v`; an absent or null field leaves both the field
and its `_milliunits` companion exactly as they were (in particular no
`_milliunits` key is invented: a `dictGet` of `none` stays `none`). -/
theorem claim_C3 (k : EntityKind) (d : Dict) (field : String) (v : ℤ)
    (hmem : field ∈ monetaryFields k) :
    (dictGet d field = some (JVal.int v) →
      dictGet (transformEntity k d) (field ++ "_milliunits") = some (JVal.int v) ∧
      dictGet (transformEntity k d) field = some (JVal.str (milliunits_to_dollars v))) ∧
    ((dictGet d field = none ∨ dictGet d field = some JVal.null) →
      dictGet (transformEntity k d) field = dictGet d field ∧
      dictGet (transformEntity k d) (field ++ "_milliunits") =
        dictGet d (field ++ "_milliunits")) := by
  cases k with
  | account =>
    have hok : FieldsOK (monetaryFields EntityKind.account) := by unfold FieldsOK; decide
    exact ⟨fun hget => transform_fields_present _ d field v hok hmem hget,
           fun hnv => transform_fields_skip _ d field hok hmem hnv⟩
  | category =>
    have hok : FieldsOK (monetaryFields EntityKind.category) := by unfold FieldsOK; decide
    exact ⟨fun hget => transform_fields_present _ d field v hok hmem hget,
           fun hnv => transform_fields_skip _ d field hok hmem hnv⟩
  | transaction =>
    have hok : FieldsOK (monetaryFields EntityKind.transaction) := by unfold FieldsOK; decide
    exact ⟨fun hget => transform_fields_present _ d field v hok hmem hget,
           fun hnv => transform_fields_skip _ d field hok hmem hnv⟩
  | month =>
    have hok : FieldsOK (monetaryFields EntityKind.month) := by unfold FieldsOK; decide
    have hcat : ∀ f ∈ monetaryFields EntityKind.month,
        f ≠ "categories" ∧ f ++ "_milliunits" ≠ "categories" := by decide
    have h1 := dictGet_transform_month_ne d field (hcat field hmem).1
    have h2 := dictGet_transform_month_ne d (field ++ "_milliunits") (hcat field hmem).2
    constructor
    · intro hget
      obtain ⟨ha, hb⟩ := transform_fields_present _ d field v hok hmem hget
      exact ⟨by rw [show transformEntity EntityKind.month d = transform_month d from rfl, h2]; exact ha,
             by rw [show transformEntity EntityKind.month d = transform_month d from rfl, h1]; exact hb⟩
    · intro hnv
      obtain ⟨ha, hb⟩ := transform_fields_skip _ d field hok hmem hnv
      exact ⟨by rw [show transformEntity EntityKind.month d = transform_month d from rfl, h1]; exact ha,
             by rw [show transformEntity EntityKind.month d = transform_month d from rfl, h2]; exact hb⟩

/-- Witness for C3: the transaction rule applied to a concrete dict. -/
theorem claim_C3_witness :
    dictGet (transformEntity EntityKind.transaction [("amount", JVal.int 12340)])
        ("amount" ++ "_milliunits") = some (JVal.int 12340) ∧
    dictGet (transformEntity EntityKind.transaction [("amount", JVal.int 12340)])
        "amount" = some (JVal.str (milliunits_to_dollars 12340)) :=
  (claim_C3 EntityKind.transaction [("amount", JVal.int 12340)] "amount" 12340
    (by simp [monetaryFields])).1 rfl

/-! ## Codec lemmas -/

theorem floor_natCast_div_ten (n : ℕ) : ⌊(n : ℚ) / 10⌋ = ((n / 10 : ℕ) : ℤ) := by
  rw [Int.floor_eq_iff]
  constructor
  · push_cast
    rw [le_div_iff₀ (by norm_num : (0:ℚ) < 10)]
    exact_mod_cast Nat.div_mul_le_self n 10
  · push_cast
    rw [div_lt_iff₀ (by norm_num : (0:ℚ) < 10)]
    exact_mod_cast (show n < (n / 10 + 1) * 10 by omega)

theorem fract_natCast_div_ten (n : ℕ) :
    (n : ℚ) / 10 - (⌊(n : ℚ) / 10⌋ : ℚ) = ((n % 10 : ℕ) : ℚ) / 10 := by
  have h : (n : ℚ) = 10 * ((n / 10 : ℕ) : ℚ) + ((n % 10 : ℕ) : ℚ) := by
    exact_mod_cast (Nat.div_add_mod n 10).symm
  rw [floor_natCast_div_ten, Int.cast_natCast]
  linarith

theorem roundNEQ_div_ten (n : ℕ) :
    roundNEQ ((n : ℚ) / 10) = ((roundHalfEvenDiv n 10 : ℕ) : ℤ) := by
  have hfl := floor_natCast_div_ten n
  have hfr := fract_natCast_div_ten n
  unfold roundNEQ roundHalfEvenDiv
  rw [hfr, hfl]
  rcases lt_trichotomy (2 * (n % 10)) 10 with h | h | h
  · have hA : ((n % 10 : ℕ) : ℚ) / 10 < 1 / 2 := by
      have h5 : ((n % 10 : ℕ) : ℚ) < 5 := by exact_mod_cast (show n % 10 < 5 by omega)
      linarith
    rw [if_pos hA, if_pos h]
  · have h5 : n % 10 = 5 := by omega
    have hB : ((n % 10 : ℕ) : ℚ) / 10 = 1 / 2 := by rw [h5]; norm_num
    rw [hB]
    rw [if_neg (lt_irrefl _), if_neg (lt_irrefl _),
      if_neg (show ¬2 * (n % 10) < 10 by omega), if_neg (show ¬10 < 2 * (n % 10) by omega)]
    by_cases hp : (n / 10) % 2 = 0
    · have hp' : ((n / 10 : ℕ) : ℤ) % 2 = 0 := by omega
      rw [if_pos hp', if_pos hp]
    · have hp' : ¬((n / 10 : ℕ) : ℤ) % 2 = 0 := by omega
      rw [if_neg hp', if_neg hp]
      push_cast
      ring
  · have h5 : (5 : ℚ) < ((n % 10 : ℕ) : ℚ) := by exact_mod_cast (show 5 < n % 10 by omega)
    have hC : ¬((n % 10 : ℕ) : ℚ) / 10 < 1 / 2 := by
      rw [not_lt]
      linarith
    have hD : 1 / 2 < ((n % 10 : ℕ) : ℚ) / 10 := by linarith
    rw [if_neg hC, if_pos hD, if_neg (show ¬2 * (n % 10) < 10 by omega), if_pos h]
    push_cast
    ring

theorem renderFixed2_eq_formatCents (n : ℕ) :
    renderFixed2 ((n : ℚ) / 1000) = formatCents (roundHalfEvenDiv n 10) := by
  unfold renderFixed2
  have h : ((n : ℚ) / 1000) * 100 = (n : ℚ) / 10 := by ring
  rw [h, roundNEQ_div_ten, Int.toNat_natCast]

/-! ## Binary64 rounding lemmas -/

theorem roundNEQ_eq_low (q : ℚ) (z : ℤ) (h1 : (z : ℚ) ≤ q) (h2 : q < (z : ℚ) + 1 / 2) :
    roundNEQ q = z := by
  have hfl : ⌊q⌋ = z := Int.floor_eq_iff.mpr ⟨h1, by linarith⟩
  have hc : q - ((z : ℤ) : ℚ) < 1 / 2 := by linarith
  unfold roundNEQ
  rw [hfl, if_pos hc]

theorem roundNEQ_eq_high (q : ℚ) (z : ℤ) (h1 : (z : ℚ) + 1 / 2 < q) (h2 : q < (z : ℚ) + 1) :
    roundNEQ q = z + 1 := by
  have hfl : ⌊q⌋ = z := Int.floor_eq_iff.mpr ⟨by linarith, h2⟩
  have hgt : 1 / 2 < q - ((z : ℤ) : ℚ) := by linarith
  have hnot : ¬(q - ((z : ℤ) : ℚ) < 1 / 2) := by linarith
  unfold roundNEQ
  rw [hfl, if_neg hnot, if_pos hgt]

theorem roundNEQ_ge_one (q : ℚ) (h : 1 ≤ q) : 1 ≤ roundNEQ q := by
  have hf : 1 ≤ ⌊q⌋ := Int.le_floor.mpr (by exact_mod_cast h)
  unfold roundNEQ
  split_ifs <;> omega

theorem binadeExp_spec_aux (q : ℚ) (c : ℤ)
    (hlow : (2:ℚ) ^ (c - 1) < q) (hupp : q < (2:ℚ) ^ (c + 1)) :
    (2:ℚ) ^ (if (2:ℚ) ^ c ≤ q then c else c - 1) ≤ q ∧
    q < (2:ℚ) ^ ((if (2:ℚ) ^ c ≤ q then c else c - 1) + 1) := by
  by_cases h : (2:ℚ) ^ c ≤ q
  · rw [if_pos h]
    exact ⟨h, hupp⟩
  · rw [if_neg h]
    refine ⟨hlow.le, ?_⟩
    have hc : c - 1 + 1 = c := by ring
    rw [hc]
    exact not_le.mp h

theorem binade_aux (a b : ℕ) (ha0 : a ≠ 0) (hb0 : b ≠ 0) :
    (2:ℚ) ^ (((a.log2 : ℤ) - (b.log2 : ℤ)) - 1) < (a : ℚ) / (b : ℚ) ∧
    (a : ℚ) / (b : ℚ) < (2:ℚ) ^ (((a.log2 : ℤ) - (b.log2 : ℤ)) + 1) := by
  have hbQ : (0:ℚ) < (b : ℚ) := by exact_mod_cast Nat.pos_of_ne_zero hb0
  have hA1 : (2:ℚ) ^ ((a.log2 : ℤ)) ≤ (a : ℚ) := by
    rw [zpow_natCast]
    exact_mod_cast (Nat.le_log2 ha0).mp le_rfl
  have hA2 : (a : ℚ) < (2:ℚ) ^ ((a.log2 : ℤ) + 1) := by
    rw [show ((a.log2 : ℤ) + 1) = ((a.log2 + 1 : ℕ) : ℤ) by push_cast; ring, zpow_natCast]
    exact_mod_cast (Nat.log2_lt ha0).mp (Nat.lt_succ_self _)
  have hB1 : (2:ℚ) ^ ((b.log2 : ℤ)) ≤ (b : ℚ) := by
    rw [zpow_natCast]
    exact_mod_cast (Nat.le_log2 hb0).mp le_rfl
  have hB2 : (b : ℚ) < (2:ℚ) ^ ((b.log2 : ℤ) + 1) := by
    rw [show ((b.log2 : ℤ) + 1) = ((b.log2 + 1 : ℕ) : ℤ) by push_cast; ring, zpow_natCast]
    exact_mod_cast (Nat.log2_lt hb0).mp (Nat.lt_succ_self _)
  constructor
  · rw [lt_div_iff₀ hbQ]
    calc (2:ℚ) ^ (((a.log2 : ℤ) - (b.log2 : ℤ)) - 1) * (b : ℚ)
        < (2:ℚ) ^ (((a.log2 : ℤ) - (b.log2 : ℤ)) - 1) * (2:ℚ) ^ ((b.log2 : ℤ) + 1) :=
          mul_lt_mul_of_pos_left hB2 (zpow_pos (by norm_num) _)
    _ = (2:ℚ) ^ ((a.log2 : ℤ)) := by
          rw [← zpow_add₀ (two_ne_zero)]
          ring_nf
    _ ≤ (a : ℚ) := hA1
  · rw [div_lt_iff₀ hbQ]
    calc (a : ℚ) < (2:ℚ) ^ ((a.log2 : ℤ) + 1) := hA2
    _ = (2:ℚ) ^ (((a.log2 : ℤ) - (b.log2 : ℤ)) + 1) * (2:ℚ) ^ ((b.log2 : ℤ)) := by
          rw [← zpow_add₀ (two_ne_zero)]
          ring_nf
    _ ≤ (2:ℚ) ^ (((a.log2 : ℤ) - (b.log2 : ℤ)) + 1) * (b : ℚ) :=
          mul_le_mul_of_nonneg_left hB1 (zpow_pos (by norm_num) _).le

theorem binadeExp_spec (q : ℚ) (hq : 0 < q) :
    (2:ℚ) ^ binadeExp q ≤ q ∧ q < (2:ℚ) ^ (binadeExp q + 1) := by
  have hnum : (0:ℤ) < q.num := Rat.num_pos.mpr hq
  have ha0 : q.num.natAbs ≠ 0 := Int.natAbs_ne_zero.mpr (ne_of_gt hnum)
  have hb0 : q.den ≠ 0 := q.den_nz
  obtain ⟨hlow, hupp⟩ := binade_aux q.num.natAbs q.den ha0 hb0
  have hqa : (q.num.natAbs : ℚ) / (q.den : ℚ) = q := by
    have h1 : ((q.num.natAbs : ℕ) : ℚ) = ((q.num : ℤ) : ℚ) := by
      have h2 : ((q.num.natAbs : ℕ) : ℤ) = q.num := Int.natAbs_of_nonneg hnum.le
      rw [← Int.cast_natCast]
      exact congrArg (fun z : ℤ => (z : ℚ)) h2
    rw [h1]
    exact Rat.num_div_den q
  rw [hqa] at hlow hupp
  unfold binadeExp
  exact binadeExp_spec_aux q _ hlow hupp

theorem binadeExp_eq (q : ℚ) (e : ℤ) (hq : 0 < q)
    (h1 : (2:ℚ) ^ e ≤ q) (h2 : q < (2:ℚ) ^ (e + 1)) : binadeExp q = e := by
  obtain ⟨g1, g2⟩ := binadeExp_spec q hq
  by_contra hne
  rcases lt_or_gt_of_ne hne with h | h
  · have hle : (2:ℚ) ^ (binadeExp q + 1) ≤ (2:ℚ) ^ e :=
      zpow_le_zpow_right₀ (by norm_num) (by omega)
    linarith
  · have hle : (2:ℚ) ^ (e + 1) ≤ (2:ℚ) ^ (binadeExp q) :=
      zpow_le_zpow_right₀ (by norm_num) (by omega)
    linarith

theorem roundToDouble_eq_of (q : ℚ) (e m : ℤ) (hq : 0 < q)
    (h1 : (2:ℚ) ^ e ≤ q) (h2 : q < (2:ℚ) ^ (e + 1))
    (hm : roundNEQ (q * (2:ℚ) ^ ((52:ℤ) - e)) = m) :
    roundToDouble q = (m : ℚ) * (2:ℚ) ^ (e - 52) := by
  unfold roundToDouble
  rw [if_neg (ne_of_gt hq), if_neg (not_lt.mpr hq.le), abs_of_pos hq,
    binadeExp_eq q e hq h1 h2, hm]

theorem roundToDouble_neg (q : ℚ) : roundToDouble (-q) = -roundToDouble q := by
  by_cases h0 : q = 0
  · simp [h0, roundToDouble]
  · have h0' : ¬(-q = 0) := by simpa using h0
    unfold roundToDouble
    rw [if_neg h0', if_neg h0, abs_neg]
    by_cases hlt : q < 0
    · rw [if_pos hlt, if_neg (by linarith : ¬(-q < 0)), neg_neg]
    · rw [if_neg hlt, if_pos (by
        rcases lt_or_eq_of_le (not_lt.mp hlt) with h | h
        · linarith
        · exact absurd h.symm h0)]

theorem roundToDouble_pos (q : ℚ) (hq : 0 < q) : 0 < roundToDouble q := by
  obtain ⟨g1, g2⟩ := binadeExp_spec q hq
  unfold roundToDouble
  rw [if_neg (ne_of_gt hq), if_neg (not_lt.mpr hq.le), abs_of_pos hq]
  have harg : (1:ℚ) ≤ q * (2:ℚ) ^ ((52:ℤ) - binadeExp q) := by
    calc (1:ℚ) ≤ (2:ℚ) ^ ((52:ℤ) - binadeExp q) * (2:ℚ) ^ (binadeExp q) := by
          rw [← zpow_add₀ (two_ne_zero)]
          have he : (52:ℤ) - binadeExp q + binadeExp q = 52 := by ring
          rw [he]
          norm_num
    _ ≤ (2:ℚ) ^ ((52:ℤ) - binadeExp q) * q :=
          mul_le_mul_of_nonneg_left g1 (zpow_pos (by norm_num) _).le
    _ = q * (2:ℚ) ^ ((52:ℤ) - binadeExp q) := mul_comm _ _
  have hmQ : (1:ℚ) ≤ (roundNEQ (q * (2:ℚ) ^ ((52:ℤ) - binadeExp q)) : ℚ) := by
    exact_mod_cast roundNEQ_ge_one _ harg
  exact mul_pos (lt_of_lt_of_le zero_lt_one hmQ) (zpow_pos (by norm_num) _)

theorem roundToDouble_neg_of_neg (q : ℚ) (hq : q < 0) : roundToDouble q < 0 := by
  have h := roundToDouble_pos (-q) (by linarith)
  rw [roundToDouble_neg] at h
  linarith

theorem roundToDouble_nonneg (q : ℚ) (h : 0 ≤ q) : 0 ≤ roundToDouble q := by
  rcases eq_or_lt_of_le h with h0 | hpos
  · rw [← h0]
    simp [roundToDouble]
  · exact (roundToDouble_pos q hpos).le

theorem roundToDouble_nonpos (q : ℚ) (h : q ≤ 0) : roundToDouble q ≤ 0 := by
  rcases eq_or_lt_of_le h with h0 | hneg
  · rw [h0]
    simp [roundToDouble]
  · exact (roundToDouble_neg_of_neg q hneg).le

/-! ## Codec claims -/

/-- Counterexample for C1: at the decimal input 1.005 — which reaches the
program as the double nearest 1.005 — the program computes
`int(1.005 * 1000) = 1004` (the binary64 product of the double input lies
just below 1005), while the claimed truncation toward zero of the exact
`1.005 * 1000` is 1005. -/
theorem claim_C1_counterexample :
    dollars_to_milliunits (roundToDouble (201 / 200)) = 1004 ∧
    ratTruncTowardZero ((201 / 200 : ℚ) * 1000) = 1005 ∧
    dollars_to_milliunits (roundToDouble (201 / 200)) ≠
      ratTruncTowardZero ((201 / 200 : ℚ) * 1000) := by
  have hD1 : roundToDouble ((201 : ℚ) / 200) =
      (4526117625507348 : ℚ) * (2:ℚ) ^ ((0:ℤ) - 52) := by
    apply roundToDouble_eq_of _ 0 4526117625507348 (by norm_num) (by norm_num) (by norm_num)
    exact roundNEQ_eq_low _ 4526117625507348 (by norm_num) (by norm_num)
  have hD2 : roundToDouble ((4526117625507348 : ℚ) * (2:ℚ) ^ ((0:ℤ) - 52) * 1000) =
      (8840073487319039 : ℚ) * (2:ℚ) ^ ((9:ℤ) - 52) := by
    apply roundToDouble_eq_of _ 9 8840073487319039 (by norm_num) (by norm_num) (by norm_num)
    exact roundNEQ_eq_low _ 8840073487319039 (by norm_num) (by norm_num)
  have h1 : dollars_to_milliunits (roundToDouble (201 / 200)) = 1004 := by
    unfold dollars_to_milliunits
    rw [hD1, hD2]
    unfold ratTruncTowardZero
    rw [if_neg (by norm_num : ¬(8840073487319039 : ℚ) * (2:ℚ) ^ ((9:ℤ) - 52) < 0)]
    rw [Int.floor_eq_iff]
    constructor <;> norm_num
  have h2 : ratTruncTowardZero ((201 / 200 : ℚ) * 1000) = 1005 := by
    unfold ratTruncTowardZero
    rw [show (201 / 200 : ℚ) * 1000 = ((1005 : ℤ) : ℚ) from by norm_num]
    rw [if_neg (by norm_num : ¬((1005 : ℤ) : ℚ) < 0)]
    exact Int.floor_intCast 1005
  refine ⟨h1, h2, ?_⟩
  rw [h1, h2]
  decide

/-- Claim C1 as amended: `dollars_to_milliunits` truncates toward zero the
binary64 product `fl(d * 1000)` of the (double) input, not the exact
product — its absolute value is the greatest integer magnitude not above
`|fl(d * 1000)|`, its sign follows the input's — and the scenario value
holds: at the double nearest 19.99 the result is 19990. -/
theorem claim_C1 (d : ℚ) :
    |(dollars_to_milliunits d : ℚ)| ≤ |roundToDouble (d * 1000)| ∧
    |roundToDouble (d * 1000)| < |(dollars_to_milliunits d : ℚ)| + 1 ∧
    (0 ≤ d → 0 ≤ dollars_to_milliunits d) ∧
    (d ≤ 0 → dollars_to_milliunits d ≤ 0) ∧
    dollars_to_milliunits (roundToDouble (1999 / 100)) = 19990 := by
  have hD3 : roundToDouble ((1999 : ℚ) / 100) =
      (5626684784446013 : ℚ) * (2:ℚ) ^ ((4:ℤ) - 52) := by
    apply roundToDouble_eq_of _ 4 5626684784446013 (by norm_num) (by norm_num) (by norm_num)
    exact roundNEQ_eq_low _ 5626684784446013 (by norm_num) (by norm_num)
  have hD4 : roundToDouble ((5626684784446013 : ℚ) * (2:ℚ) ^ ((4:ℤ) - 52) * 1000) =
      (5494809359810560 : ℚ) * (2:ℚ) ^ ((14:ℤ) - 52) := by
    apply roundToDouble_eq_of _ 14 5494809359810560 (by norm_num) (by norm_num) (by norm_num)
    rw [roundNEQ_eq_high _ 5494809359810559 (by norm_num) (by norm_num)]
    norm_num
  have hconc : dollars_to_milliunits (roundToDouble (1999 / 100)) = 19990 := by
    unfold dollars_to_milliunits
    rw [hD3, hD4]
    unfold ratTruncTowardZero
    rw [if_neg (by norm_num : ¬(5494809359810560 : ℚ) * (2:ℚ) ^ ((14:ℤ) - 52) < 0)]
    rw [Int.floor_eq_iff]
    constructor <;> norm_num
  unfold dollars_to_milliunits ratTruncTowardZero
  by_cases hq : roundToDouble (d * 1000) < 0
  · rw [if_pos hq]
    have hc0 : ⌈roundToDouble (d * 1000)⌉ ≤ 0 := Int.ceil_le.mpr (by exact_mod_cast hq.le)
    have hcle : ((⌈roundToDouble (d * 1000)⌉ : ℤ) : ℚ) ≤ 0 := by exact_mod_cast hc0
    have hle := Int.le_ceil (roundToDouble (d * 1000))
    have hlt := Int.ceil_lt_add_one (roundToDouble (d * 1000))
    rw [abs_of_neg hq, abs_of_nonpos hcle]
    refine ⟨by linarith, by linarith, ?_, fun _ => hc0, hconc⟩
    intro hd
    have := roundToDouble_nonneg (d * 1000) (mul_nonneg hd (by norm_num))
    linarith
  · rw [if_neg hq]
    push_neg at hq
    have hf0 : 0 ≤ ⌊roundToDouble (d * 1000)⌋ := Int.floor_nonneg.mpr hq
    have hfge : (0 : ℚ) ≤ ((⌊roundToDouble (d * 1000)⌋ : ℤ) : ℚ) := by exact_mod_cast hf0
    have hle := Int.floor_le (roundToDouble (d * 1000))
    have hlt := Int.lt_floor_add_one (roundToDouble (d * 1000))
    rw [abs_of_nonneg hq, abs_of_nonneg hfge]
    refine ⟨hle, by linarith, fun _ => hf0, ?_, hconc⟩
    intro hd
    have hq0 : roundToDouble (d * 1000) ≤ 0 :=
      roundToDouble_nonpos _ (mul_nonpos_iff.mpr (Or.inr ⟨hd, by norm_num⟩))
    have hfloor := Int.floor_le_floor (α := ℚ) hq0
    simpa using hfloor

/-- Counterexample for C2: at a = 12345 the program prints 12.35 dollars —
the double nearest 12.345 lies above the tie, so the float formatting
rounds up — while the exact `|a| / 1000` rendered with two fractional
digits (`renderFixed2`, ties to even) is 12.34, so the claimed equality of
the printed value with the exact rendering fails. -/
theorem claim_C2_counterexample :
    milliunits_to_dollars 12345 = "$12.35".data ∧
    '$' :: renderFixed2 ((12345 : ℚ) / 1000) = "$12.34".data ∧
    milliunits_to_dollars 12345 ≠ '$' :: renderFixed2 ((12345 : ℚ) / 1000) := by
  have hD5 : roundToDouble ((2469 : ℚ) / 200) =
      (6949617174986097 : ℚ) * (2:ℚ) ^ ((3:ℤ) - 52) := by
    apply roundToDouble_eq_of _ 3 6949617174986097 (by norm_num) (by norm_num) (by norm_num)
    rw [roundNEQ_eq_high _ 6949617174986096 (by norm_num) (by norm_num)]
    norm_num
  have hcents : roundNEQ ((6949617174986097 : ℚ) * (2:ℚ) ^ ((3:ℤ) - 52) * 100) = 1235 := by
    rw [roundNEQ_eq_high _ 1234 (by norm_num) (by norm_num)]
    norm_num
  have h1 : milliunits_to_dollars 12345 = "$12.35".data := by
    unfold milliunits_to_dollars
    rw [show ((12345 : ℤ) : ℚ) / 1000 = (2469 : ℚ) / 200 from by norm_num, hD5]
    rw [if_neg (by norm_num : ¬(6949617174986097 : ℚ) * (2:ℚ) ^ ((3:ℤ) - 52) < 0), hcents]
    decide
  have h2 : renderFixed2 ((12345 : ℚ) / 1000) = "12.34".data := by
    rw [show ((12345 : ℚ) / 1000) = (((12345 : ℕ) : ℚ) / 1000) from by norm_num,
      renderFixed2_eq_formatCents]
    decide
  refine ⟨h1, by rw [h2], ?_⟩
  rw [h1, h2]
  decide

/-- Claim C2 as amended: the display string starts with minus-dollar
exactly for negative amounts, and the printed absolute value is the
two-fractional-digit grouped rendering of the double `fl(a / 1000)` — the
binary64 quotient the program formats — rather than of the exact
`|a| / 1000`; the scenario values hold: 12340 renders as 12.34 dollars and
-500 as minus 0.50 dollars. -/
theorem claim_C2 (m : ℤ) :
    ((∃ rest, milliunits_to_dollars m = '-' :: '$' :: rest) ↔ m < 0) ∧
    milliunits_to_dollars m =
      (if m < 0 then ['-'] else []) ++ '$' ::
        renderFixed2 |roundToDouble ((m : ℚ) / 1000)| ∧
    milliunits_to_dollars 12340 = "$12.34".data ∧
    milliunits_to_dollars (-500) = "-$0.50".data := by
  have hneg : ∀ k : ℤ, k < 0 → roundToDouble ((k : ℚ) / 1000) < 0 := fun k hk =>
    roundToDouble_neg_of_neg _ (div_neg_of_neg_of_pos (by exact_mod_cast hk) (by norm_num))
  have hval : milliunits_to_dollars m =
      (if m < 0 then ['-'] else []) ++ '$' ::
        renderFixed2 |roundToDouble ((m : ℚ) / 1000)| := by
    unfold milliunits_to_dollars renderFixed2
    by_cases hm : m < 0
    · rw [if_pos (hneg m hm), if_pos hm]
      rfl
    · have hge : 0 ≤ roundToDouble ((m : ℚ) / 1000) :=
        roundToDouble_nonneg _ (div_nonneg (by exact_mod_cast not_lt.mp hm) (by norm_num))
      rw [if_neg (not_lt.mpr hge), if_neg hm, abs_of_nonneg hge]
      rfl
  have hc12340 : milliunits_to_dollars 12340 = "$12.34".data := by
    have hD6 : roundToDouble ((617 : ℚ) / 50) =
        (6946802425218990 : ℚ) * (2:ℚ) ^ ((3:ℤ) - 52) := by
      apply roundToDouble_eq_of _ 3 6946802425218990 (by norm_num) (by norm_num) (by norm_num)
      exact roundNEQ_eq_low _ 6946802425218990 (by norm_num) (by norm_num)
    have hcents : roundNEQ ((6946802425218990 : ℚ) * (2:ℚ) ^ ((3:ℤ) - 52) * 100) = 1234 := by
      rw [roundNEQ_eq_high _ 1233 (by norm_num) (by norm_num)]
      norm_num
    unfold milliunits_to_dollars
    rw [show ((12340 : ℤ) : ℚ) / 1000 = (617 : ℚ) / 50 from by norm_num, hD6]
    rw [if_neg (by norm_num : ¬(6946802425218990 : ℚ) * (2:ℚ) ^ ((3:ℤ) - 52) < 0), hcents]
    decide
  have hc500 : milliunits_to_dollars (-500) = "-$0.50".data := by
    have hhalf : roundToDouble ((1 : ℚ) / 2) =
        (4503599627370496 : ℚ) * (2:ℚ) ^ ((-1:ℤ) - 52) := by
      apply roundToDouble_eq_of _ (-1) 4503599627370496 (by norm_num) (by norm_num) (by norm_num)
      exact roundNEQ_eq_low _ 4503599627370496 (by norm_num) (by norm_num)
    have hD7 : roundToDouble (((-500 : ℤ) : ℚ) / 1000) =
        -((4503599627370496 : ℚ) * (2:ℚ) ^ ((-1:ℤ) - 52)) := by
      rw [show (((-500 : ℤ) : ℚ) / 1000) = -((1 : ℚ) / 2) from by norm_num, roundToDouble_neg,
        hhalf]
    have h50 : |-((4503599627370496 : ℚ) * (2:ℚ) ^ ((-1:ℤ) - 52))| * 100 = (50 : ℚ) := by
      rw [abs_neg, abs_of_pos (by positivity)]
      norm_num
    unfold milliunits_to_dollars
    rw [hD7, if_pos (by norm_num : -((4503599627370496 : ℚ) * (2:ℚ) ^ ((-1:ℤ) - 52)) < 0), h50]
    rw [show roundNEQ (50 : ℚ) = 50 from roundNEQ_eq_low _ 50 (by norm_num) (by norm_num)]
    decide
  refine ⟨⟨?_, ?_⟩, hval, hc12340, hc500⟩
  · rintro ⟨rest, hres⟩
    by_contra hm
    rw [hval] at hres
    simp only [if_neg hm, List.nil_append, List.cons.injEq] at hres
    exact absurd hres.1 (by decide)
  · intro hm
    refine ⟨formatCents (roundNEQ (|roundToDouble ((m : ℚ) / 1000)| * 100)).toNat, ?_⟩
    unfold milliunits_to_dollars
    rw [if_pos (hneg m hm)]

/-! ## Validator and classifier claims -/

/-- Claim C4: the shared `exactly_one_amount` validator accepts exactly when
one of the two amount fields is present, and each of the three
creation / single-amount-mutation pipelines reaches its upstream call
exactly under the same condition (the validator runs at input
construction, before any upstream call); the spec's concrete accept and
reject cases hold. -/
theorem claim_C4 (m : Option ℤ) (d : Option ℚ) :
    (exactly_one_amount m d = Except.ok () ↔ (m.isSome != d.isSome) = true) ∧
    (ynab_create_transaction_run m d).2 = (m.isSome != d.isSome) ∧
    (ynab_create_scheduled_transaction_run m d).2 = (m.isSome != d.isSome) ∧
    (ynab_update_category_budget_run m d).2 = (m.isSome != d.isSome) ∧
    exactly_one_amount (some 5000) (some 5) =
      Except.error "Provide exactly one of amount_milliunits or amount_dollars".data ∧
    exactly_one_amount (none : Option ℤ) (none : Option ℚ) =
      Except.error "Provide exactly one of amount_milliunits or amount_dollars".data ∧
    exactly_one_amount (some 5000) (none : Option ℚ) = Except.ok () ∧
    exactly_one_amount (none : Option ℤ) (some 5) = Except.ok () := by
  cases m <;> cases d <;>
    simp [exactly_one_amount, ynab_create_transaction_run,
      ynab_create_scheduled_transaction_run, ynab_update_category_budget_run]

/-- Claim C7: the error classifier is a total function to message text
(it never raises): status 401 maps to the invalid-key message, 403 to the
forbidden message, 404 to the not-found message, 429 to the rate-limit
message; any other status yields the generic upstream message carrying the
status digits and the reason as substrings; and every non-upstream failure
yields the generic message carrying the failure kind name and description
as substrings. -/
theorem claim_C7 (reason typeName descr : Str) (s : ℕ) :
    handle_api_error (Failure.apiException 401 reason) =
      "Error: Invalid API key. Check YNAB_API_KEY environment variable.".data ∧
    handle_api_error (Failure.apiException 403 reason) =
      "Error: Access forbidden. You don't have permission for this resource.".data ∧
    handle_api_error (Failure.apiException 404 reason) =
      "Error: Resource not found. Check the ID is correct.".data ∧
    handle_api_error (Failure.apiException 429 reason) =
      "Error: Rate limit exceeded. Wait before making more requests.".data ∧
    (s ≠ 401 → s ≠ 403 → s ≠ 404 → s ≠ 429 →
      handle_api_error (Failure.apiException s reason) =
        "Error: YNAB API error ".data ++ natStr s ++ ": ".data ++ reason ∧
      SubstringOf (natStr s) (handle_api_error (Failure.apiException s reason)) ∧
      SubstringOf reason (handle_api_error (Failure.apiException s reason))) ∧
    (handle_api_error (Failure.other typeName descr) =
        "Error: ".data ++ typeName ++ ": ".data ++ descr ∧
      SubstringOf typeName (handle_api_error (Failure.other typeName descr)) ∧
      SubstringOf descr (handle_api_error (Failure.other typeName descr))) := by
  refine ⟨rfl, rfl, rfl, rfl, ?_, ?_⟩
  · intro h1 h2 h3 h4
    have he : handle_api_error (Failure.apiException s reason) =
        "Error: YNAB API error ".data ++ natStr s ++ ": ".data ++ reason := by
      simp [handle_api_error, h1, h2, h3, h4]
    refine ⟨he, ?_, ?_⟩
    · exact ⟨"Error: YNAB API error ".data, ": ".data ++ reason,
        by rw [he]; simp [List.append_assoc]⟩
    · exact ⟨"Error: YNAB API error ".data ++ natStr s ++ ": ".data, [],
        by rw [he]; simp [List.append_assoc]⟩
  · refine ⟨rfl, ?_, ?_⟩
    · exact ⟨"Error: ".data, ": ".data ++ descr,
        by simp [handle_api_error, List.append_assoc]⟩
    · exact ⟨"Error: ".data ++ typeName ++ ": ".data, [],
        by simp [handle_api_error, List.append_assoc]⟩

/-! ## Substring search lemmas -/

theorem startsWithStr_iff (needle : Str) :
    ∀ hay : Str, startsWithStr needle hay = true ↔ ∃ rest, hay = needle ++ rest := by
  induction needle with
  | nil => intro hay; simp [startsWithStr]
  | cons a q ih =>
    intro hay
    cases hay with
    | nil => simp [startsWithStr]
    | cons b s =>
      rw [show startsWithStr (a :: q) (b :: s) = (a == b && startsWithStr q s) from rfl,
        Bool.and_eq_true, beq_iff_eq, ih]
      constructor
      · rintro ⟨hab, rest, hr⟩
        exact ⟨rest, by rw [hab, hr]; rfl⟩
      · rintro ⟨rest, hr⟩
        rw [List.cons_append] at hr
        injection hr with hh ht
        exact ⟨hh.symm, rest, ht⟩

theorem pyIn_iff (needle : Str) :
    ∀ hay : Str, pyIn needle hay = true ↔ SubstringOf needle hay := by
  intro hay
  induction hay with
  | nil =>
    constructor
    · intro h
      have hn : needle = [] := by
        cases needle with
        | nil => rfl
        | cons a q => simp [pyIn, List.isEmpty] at h
      exact ⟨[], [], by simp [hn]⟩
    · rintro ⟨pre, post, hp⟩
      have h1 : pre ++ needle ++ post = [] := hp.symm
      have h2 := List.append_eq_nil.mp h1
      have h3 := List.append_eq_nil.mp h2.1
      simp [pyIn, h3.2, List.isEmpty]
  | cons c rest ih =>
    rw [show pyIn needle (c :: rest) = (startsWithStr needle (c :: rest) || pyIn needle rest)
        from rfl,
      Bool.or_eq_true, startsWithStr_iff, ih]
    constructor
    · rintro (⟨r, hr⟩ | ⟨pre, post, hp⟩)
      · exact ⟨[], r, by simpa using hr⟩
      · exact ⟨c :: pre, post, by simp [hp]⟩
    · rintro ⟨pre, post, hp⟩
      cases pre with
      | nil => exact Or.inl ⟨post, by simpa using hp⟩
      | cons p ps =>
        rw [List.cons_append, List.cons_append] at hp
        injection hp with hh ht
        exact Or.inr ⟨ps, post, ht⟩

theorem foldl_filter_append {α β : Type} (p : α → Bool) (f : α → β) (l : List α) :
    ∀ acc : List β,
      l.foldl (fun a t => if p t then a ++ [f t] else a) acc = acc ++ (l.filter p).map f := by
  induction l with
  | nil => intro acc; simp
  | cons t rest ih =>
    intro acc
    by_cases hp : p t
    · simp [List.foldl_cons, List.filter_cons, hp, ih, List.append_assoc]
    · simp [List.foldl_cons, List.filter_cons, hp, ih]

/-- Claim C8: the search result is exactly the transformed dicts of the
transactions whose lowercased payee name or memo contains the lowercased
query as a substring, in order; membership in the filtered set is the
case-insensitive substring condition; and the two scenario-E matches hold
for the query "coffee". -/
theorem claim_C8 (query : Str) (ts : List RawTxn) :
    search_matches query ts =
      (ts.filter (txnMatches (lowerStr query))).map (fun t => transform_transaction t.fields) ∧
    (∀ t : RawTxn, t ∈ ts.filter (txnMatches (lowerStr query)) ↔
      t ∈ ts ∧ (SubstringOf (lowerStr query) (lowerStr (t.payee_name.getD [])) ∨
                SubstringOf (lowerStr query) (lowerStr (t.memo.getD [])))) ∧
    txnMatches (lowerStr "coffee".data)
      { payee_name := some "Blue Bottle Coffee".data, memo := none, fields := [] } = true ∧
    txnMatches (lowerStr "coffee".data)
      { payee_name := none, memo := some "Office coffee run".data, fields := [] } = true := by
  refine ⟨?_, ?_, by decide, by decide⟩
  · unfold search_matches
    simpa using foldl_filter_append (txnMatches (lowerStr query))
      (fun t => transform_transaction t.fields) ts []
  · intro t
    simp [List.mem_filter, txnMatches, Bool.or_eq_true, pyIn_iff]

/-! ## Listing-tool claims -/

theorem milliOrZero_transform (t : Dict) (h0 : dictGet t "amount_milliunits" = none)
    (h1 : amountOk t = true) :
    milliOrZero (transform_transaction t) = rawAmount t := by
  have hkey : ("amount" ++ "_milliunits" : String) = "amount_milliunits" := rfl
  unfold transform_transaction transform_amount_fields
  rw [List.foldl_cons, List.foldl_nil]
  cases ha : dictGet t "amount" with
  | none => simp [applyAmountField, ha, milliOrZero, h0, rawAmount]
  | some v =>
    cases v with
    | null => simp [applyAmountField, ha, milliOrZero, h0, rawAmount]
    | int n =>
      have hstep : applyAmountField t "amount" =
          dictSet (dictSet t "amount_milliunits" (JVal.int n)) "amount"
            (JVal.str (milliunits_to_dollars n)) := by
        simp [applyAmountField, ha, jvalToInt, hkey]
      rw [hstep]
      unfold milliOrZero rawAmount
      rw [dictGet_dictSet_ne _ _ _ _ (by decide : ("amount_milliunits" : String) ≠ "amount"),
        dictGet_dictSet_self, ha]
    | bool b => simp [amountOk, ha] at h1
    | str s => simp [amountOk, ha] at h1
    | arr xs => simp [amountOk, ha] at h1
    | obj fs => simp [amountOk, ha] at h1

theorem total_eq_raw_sum (raw : List Dict)
    (h : ∀ t ∈ raw, dictGet t "amount_milliunits" = none ∧ amountOk t = true) :
    txn_total_milliunits (raw.map transform_transaction) = (raw.map rawAmount).sum := by
  unfold txn_total_milliunits
  rw [List.map_map]
  congr 1
  apply List.map_congr_left
  intro t ht
  exact milliOrZero_transform t (h t ht).1 (h t ht).2

/-- Claim C6: with `summary_only = true` the listing call returns exactly
the count / total_milliunits / total object — no `transactions` key exists
in it — and writes nothing, whatever `output_to_file`, the path option or
a pending file-system failure; the count is the number of items, the
display total is the conversion of the integer total, and on well-formed
upstream data (no pre-existing `amount_milliunits` key, `amount` absent,
null or integer) the integer total is the sum of the raw integer amounts,
computed before any display conversion. -/
theorem claim_C6 (raw : List Dict) (o2f : Bool) (pathOpt : Option Str)
    (fsFail : Option Failure) (ts0 : Str) :
    ynab_get_transactions_run ⟨o2f, pathOpt, true⟩ (Except.ok raw) fsFail ts0 =
      Except.ok (json_dumps 0 (JVal.obj (get_txns_summary_only_obj raw)), []) ∧
    dictGet (get_txns_summary_only_obj raw) "transactions" = none ∧
    dictGet (get_txns_summary_only_obj raw) "count" = some (JVal.int raw.length) ∧
    dictGet (get_txns_summary_only_obj raw) "total" =
      some (JVal.str (milliunits_to_dollars (txn_total_milliunits (raw.map transform_transaction)))) ∧
    ((∀ t ∈ raw, dictGet t "amount_milliunits" = none ∧ amountOk t = true) →
      dictGet (get_txns_summary_only_obj raw) "total_milliunits" =
        some (JVal.int ((raw.map rawAmount).sum))) := by
  refine ⟨rfl, rfl, ?_, rfl, ?_⟩
  · simp [get_txns_summary_only_obj, dictGet]
  · intro h
    rw [show dictGet (get_txns_summary_only_obj raw) "total_milliunits" =
        some (JVal.int (txn_total_milliunits (raw.map transform_transaction))) from rfl,
      total_eq_raw_sum raw h]

/-- Claim C5: with `output_to_file = false` and `summary_only = false`, the
call branches exactly on whether the serialized full document is strictly
longer than the 25000-character budget: if so, the full document is
written to the resolved path and the call returns the compact
acknowledgement (which carries the count, the integer and display totals
and the output path); otherwise the full serialized document is returned
inline and nothing is written. -/
theorem claim_C5 (raw : List Dict) (pathOpt : Option Str) (ts0 : Str) :
    (ynab_get_transactions_run ⟨false, pathOpt, false⟩ (Except.ok raw) none ts0 =
      if (json_dumps 0 (JVal.obj (get_txns_full_obj raw))).length > CHARACTER_LIMIT then
        Except.ok
          (json_dumps 0 (JVal.obj (get_txns_too_large_ack raw
              (write_to_file_path "transactions".data pathOpt ts0)
              (json_dumps 0 (JVal.obj (get_txns_full_obj raw))).length)),
           [(write_to_file_path "transactions".data pathOpt ts0,
             JVal.obj (get_txns_full_obj raw))])
      else Except.ok (json_dumps 0 (JVal.obj (get_txns_full_obj raw)), [])) ∧
    (∀ (fp : Str) (L : ℕ),
      dictGet (get_txns_too_large_ack raw fp L) "count" = some (JVal.int raw.length) ∧
      dictGet (get_txns_too_large_ack raw fp L) "total_milliunits" =
        some (JVal.int (txn_total_milliunits (raw.map transform_transaction))) ∧
      dictGet (get_txns_too_large_ack raw fp L) "total" =
        some (JVal.str (milliunits_to_dollars (txn_total_milliunits (raw.map transform_transaction)))) ∧
      dictGet (get_txns_too_large_ack raw fp L) "output_file" = some (JVal.str fp)) ∧
    dictGet (get_txns_full_obj raw) "transactions" =
      some (JVal.arr ((raw.map transform_transaction).map JVal.obj)) := by
  refine ⟨?_, ?_, rfl⟩
  · by_cases hlen : (json_dumps 0 (JVal.obj (get_txns_full_obj raw))).length > CHARACTER_LIMIT <;>
      simp [ynab_get_transactions_run, hlen]
  · intro fp L
    exact ⟨by simp [get_txns_too_large_ack, get_txns_summary_only_obj, dictGet], rfl, rfl, rfl⟩

/-- Counterexample for C9: a file-system failure during an explicit spill
write does not escape the operation — the concrete run returns the
classifier's descriptive text, so the caller does receive the descriptive
error string. -/
theorem claim_C9_counterexample :
    ynab_get_transactions_run ⟨true, none, false⟩ (Except.ok [])
        (some (Failure.other "OSError".data "disk full".data)) "20240101_000000".data =
      Except.ok ("Error: OSError: disk full".data, []) := rfl

/-- Claim C9 as amended: a file-system failure raised during a spill write
is caught by the operation's `try/except Exception` handler like any other
failure and classified through the generic branch of `handle_api_error`,
so the caller receives the descriptive error string; the operation never
propagates an exception. -/
theorem claim_C9 (pathOpt : Option Str) (raw : List Dict) (e : Failure) (ts0 : Str)
    (params : ListToolParams) (up : Except Failure (List Dict)) (fsFail : Option Failure) :
    ynab_get_transactions_run ⟨true, pathOpt, false⟩ (Except.ok raw) (some e) ts0 =
      Except.ok (handle_api_error e, []) ∧
    resultIsOk (ynab_get_transactions_run params up fsFail ts0) = true := by
  constructor
  · rfl
  · obtain ⟨o2f, p, so⟩ := params
    cases up with
    | error e' => rfl
    | ok raw' =>
      cases so with
      | true => rfl
      | false =>
        cases o2f with
        | true => cases fsFail <;> rfl
        | false =>
          by_cases hlen :
              (json_dumps 0 (JVal.obj (get_txns_full_obj raw'))).length > CHARACTER_LIMIT
          · cases fsFail <;> simp [ynab_get_transactions_run, hlen, resultIsOk]
          · simp [ynab_get_transactions_run, hlen, resultIsOk]

/-- Claim C10: with `summary_only = true` neither listing tool ever writes
a file, whatever `output_to_file`, the path option, the upstream response
or its size: the summary branch returns before any file-writing code. -/
theorem claim_C10 (o2f : Bool) (pathOpt : Option Str) (up : Except Failure (List Dict))
    (upS : Except Failure (List RawTxn)) (fsFail : Option Failure) (ts0 q : Str) :
    writesOf (ynab_get_transactions_run ⟨o2f, pathOpt, true⟩ up fsFail ts0) = [] ∧
    writesOf (ynab_search_transactions_run q ⟨o2f, pathOpt, true⟩ upS fsFail ts0) = [] := by
  constructor
  · cases up with
    | error e => rfl
    | ok raw => rfl
  · cases upS with
    | error e => rfl
    | ok ts => rfl
